import Mathlib

/-!
Shallow embedding of `process_pdfs.py` (class `PDFOutlineExtractor`), the PDF
outline extractor of this repository.  Text is modelled as `String` / `List Char`
(ASCII character classes stand in for Python's regex classes `\s`, `\d`, `\w`,
`[A-Z]`), font sizes and scores as `ℚ`, font flags as `ℕ` bit masks, and a
fallible page-layout read (`page.get_text`) as an `Except Unit` value per page.
-/

attribute [local semireducible] Rat.mul Rat.add Rat.inv Rat.sub

/-- Python ASCII whitespace, the characters matched by `\s` and stripped by
`str.strip()` (the embedding restricts to ASCII). -/
def isSpaceChar (c : Char) : Bool :=
  c = ' ' || c = '\t' || c = '\n' || c = '\r' || c = '\x0b' || c = '\x0c'

/-- ASCII decimal digit, the class `\d`. -/
def isDigitChar (c : Char) : Bool :=
  '0' ≤ c && c ≤ '9'

/-- ASCII uppercase letter, the class `[A-Z]`. -/
def isUpperChar (c : Char) : Bool :=
  'A' ≤ c && c ≤ 'Z'

/-- ASCII word character, the class `\w` (letters, digits, underscore). -/
def isWordChar (c : Char) : Bool :=
  ('a' ≤ c && c ≤ 'z') || isUpperChar c || isDigitChar c || c = '_'

/-- Characters kept by the artifact-removal step of `_clean_text`,
the complement of the regex class `[^\w\s\-.,():'"!?]`
(the apostrophe is the character of code 39). -/
def isAllowedChar (c : Char) : Bool :=
  isWordChar c || isSpaceChar c || c = '-' || c = '.' || c = ',' ||
  c = '(' || c = ')' || c = ':' || c.toNat = 39 || c = '"' || c = '!' || c = '?'

/-- Remove trailing whitespace (the right half of Python `str.strip()`). -/
def rstripChars : List Char → List Char
  | [] => []
  | c :: cs =>
    match rstripChars cs with
    | [] => if isSpaceChar c then [] else [c]
    | r => c :: r

/-- Python `str.strip()`: remove leading and trailing whitespace. -/
def stripChars (l : List Char) : List Char :=
  rstripChars (l.dropWhile isSpaceChar)

/-- Python `str.strip()` on a `String`. -/
def pyStrip (s : String) : String :=
  ⟨stripChars s.data⟩

/-- Worker for `re.sub(r'\s+', ' ', text)`: the flag records whether the
previous character was whitespace (its run's single replacement space has
already been emitted). -/
def collapseGo : Bool → List Char → List Char
  | _, [] => []
  | inSpace, c :: cs =>
    if isSpaceChar c then
      if inSpace then collapseGo true cs
      else ' ' :: collapseGo true cs
    else c :: collapseGo false cs

/-- `re.sub(r'\s+', ' ', text)`: replace every maximal run of whitespace by a
single space. -/
def collapseWS (l : List Char) : List Char :=
  collapseGo false l

/-- `_clean_text` on character lists: collapse whitespace, strip, then delete
artifact characters (`re.sub(r'[^\w\s\-.,():'"!?]', '', text)`). -/
def cleanChars (l : List Char) : List Char :=
  (stripChars (collapseWS l)).filter isAllowedChar

/-- `PDFOutlineExtractor._clean_text`. -/
def _clean_text (s : String) : String :=
  ⟨cleanChars s.data⟩

/-- Consume one-or-more digits (`\d+`); `none` when no digit starts the list. -/
def dropDigits1 (l : List Char) : Option (List Char) :=
  if (l.takeWhile isDigitChar).isEmpty then none
  else some (l.dropWhile isDigitChar)

/-- Consume one-or-more whitespace characters (`\s+`). -/
def dropSpaces1 (l : List Char) : Option (List Char) :=
  if (l.takeWhile isSpaceChar).isEmpty then none
  else some (l.dropWhile isSpaceChar)

/-- `re.match(r'^\d+\.\s+', text)`. -/
def matchNumH1 (l : List Char) : Bool :=
  match dropDigits1 l with
  | some (c :: r) => c = '.' && (dropSpaces1 r).isSome
  | _ => false

/-- `re.match(r'^\d+\.\d+\s+', text)`. -/
def matchNumH2 (l : List Char) : Bool :=
  match dropDigits1 l with
  | some (c :: r) =>
    c = '.' &&
      (match dropDigits1 r with
       | some r2 => (dropSpaces1 r2).isSome
       | none => false)
  | _ => false

/-- `re.match(r'^\d+\.\d+\.\d+\s+', text)`. -/
def matchNumH3 (l : List Char) : Bool :=
  match dropDigits1 l with
  | some (c :: r) =>
    c = '.' &&
      (match dropDigits1 r with
       | some (c2 :: r2) =>
         c2 = '.' &&
           (match dropDigits1 r2 with
            | some r3 => (dropSpaces1 r3).isSome
            | none => false)
       | _ => false)
  | _ => false

/-- `re.match(r'^[A-Z][A-Z\s]+$', text)` (this pattern is compiled without
`re.IGNORECASE` in the source). -/
def matchAllCaps (l : List Char) : Bool :=
  match l with
  | c :: rest =>
    isUpperChar c && !rest.isEmpty &&
      rest.all (fun d => isUpperChar d || isSpaceChar d)
  | [] => false

/-- Case-insensitively consume the literal word `kw` (given lowercase). -/
def dropCaseless : List Char → List Char → Option (List Char)
  | [], l => some l
  | _ :: _, [] => none
  | k :: ks, c :: cs => if c.toLower = k then dropCaseless ks cs else none

/-- `re.match(r'^(Chapter|Section|Part)\s+\d+', text, re.IGNORECASE)`. -/
def matchChapterSectionPart (l : List Char) : Bool :=
  ["chapter".data, "section".data, "part".data].any (fun kw =>
    match dropCaseless kw l with
    | some r =>
      match dropSpaces1 r with
      | some r2 =>
        match r2 with
        | d :: _ => isDigitChar d
        | [] => false
      | none => false
    | none => false)

/-- `any(pattern.match(text) for pattern in self.heading_patterns)`:
the five compiled `heading_patterns` of the extractor. -/
def matchesHeadingPattern (s : String) : Bool :=
  matchNumH1 s.data || matchNumH2 s.data || matchNumH3 s.data ||
  matchAllCaps s.data || matchChapterSectionPart s.data

/-- A raw text span as reported by `page.get_text("dict")`:
`span["text"]`, `span["size"]`, `span["flags"]`, `span["bbox"]`. -/
structure Span where
  text : String
  size : ℚ
  flags : ℕ
  bbox : ℚ × ℚ × ℚ × ℚ
deriving DecidableEq, Repr

/-- A `line` entry of a text block: a list of spans. -/
structure Line where
  spans : List Span
deriving DecidableEq, Repr

/-- A `block` entry: image blocks carry no `"lines"` key (`none`). -/
structure Block where
  lines : Option (List Line)
deriving DecidableEq, Repr

deriving instance DecidableEq for Except

/-- An opened PDF document: per page, either its text blocks or a raised
exception from `page.get_text` (modelled as `Except.error ()`), plus the
optional metadata title field. -/
structure PDFDoc where
  pages : List (Except Unit (List Block))
  metadata_title : Option String
deriving DecidableEq, Repr

/-- The per-span record appended to `all_spans` in `_extract_headings`
(the text is stored already stripped). -/
structure SpanRec where
  text : String
  size : ℚ
  flags : ℕ
  page : ℕ
  bbox : ℚ × ℚ × ℚ × ℚ
deriving DecidableEq, Repr

/-- A scored heading candidate. -/
structure Candidate where
  text : String
  page : ℕ
  size : ℚ
  score : ℚ
deriving DecidableEq, Repr

/-- A final outline entry. -/
structure Heading where
  level : String
  text : String
  page : ℕ
deriving DecidableEq, Repr

/-- The `{title, outline}` result of `extract_outline`. -/
structure Outline where
  title : String
  outline : List Heading
deriving DecidableEq, Repr

/-- The `self.config` dictionary of the extractor. -/
structure Config where
  font_size_weight : ℚ
  bold_weight : ℚ
  position_weight : ℚ
  pattern_weight : ℚ
  length_weight : ℚ
  min_heading_score : ℚ
  max_heading_length : ℕ
  min_heading_length : ℕ
deriving DecidableEq, Repr

/-- The default configuration built in `__init__`. -/
def defaultConfig : Config :=
  ⟨35/100, 25/100, 15/100, 15/100, 10/100, 3/10, 200, 3⟩

/-- Python `min` on two rationals (the first argument on ties). -/
def pyMin (a b : ℚ) : ℚ :=
  if a ≤ b then a else b

/-- `PDFOutlineExtractor._calculate_heading_score`: weighted multi-criteria
score of one span record against the document's median font size. -/
def _calculate_heading_score (cfg : Config) (span : SpanRec) (median_size : ℚ) : ℚ :=
  let size_score : ℚ := pyMin (span.size / median_size) 2 / 2
  let bold_score : ℚ := if span.flags &&& 16 ≠ 0 then 1 else 0
  let pos_score : ℚ := 7/10
  let pattern_score : ℚ := if matchesHeadingPattern span.text = true then 1 else 0
  let length_score : ℚ :=
    if span.text.data.length > cfg.max_heading_length then 0
    else if span.text.data.length < cfg.min_heading_length then 0
    else 1
  pyMin (size_score * cfg.font_size_weight + bold_score * cfg.bold_weight +
       pos_score * cfg.position_weight + pattern_score * cfg.pattern_weight +
       length_score * cfg.length_weight) 1

/-- Stable insertion of `x` after every element `y` of the (sorted)
accumulator with `le y x`. -/
def pyInsert (le : α → α → Bool) (x : α) : List α → List α
  | [] => [x]
  | y :: ys => if le y x then y :: pyInsert le x ys else x :: y :: ys

/-- Python's stable `sort` / `sorted` with a total preorder `le`. -/
def pySort (le : α → α → Bool) (l : List α) : List α :=
  l.foldl (fun acc x => pyInsert le x acc) []

/-- `statistics.median`: middle element of the ascending sort for odd length,
mean of the two middle elements for even length (0 on the empty list, which the
caller rules out). -/
def pyMedian (l : List ℚ) : ℚ :=
  let s := pySort (fun a b => decide (a ≤ b)) l
  let n := s.length
  if n = 0 then 0
  else if n % 2 = 1 then s.getD (n / 2) 0
  else (s.getD (n / 2 - 1) 0 + s.getD (n / 2) 0) / 2

/-- Span records contributed by one block of a page: spans of all its lines
whose stripped text has at least `min_heading_length` characters. -/
def blockSpans (cfg : Config) (page : ℕ) (b : Block) : List SpanRec :=
  match b.lines with
  | none => []
  | some lns =>
    lns.flatMap (fun ln =>
      ln.spans.filterMap (fun sp =>
        let t := pyStrip sp.text
        if cfg.min_heading_length ≤ t.data.length then
          some ⟨t, sp.size, sp.flags, page, sp.bbox⟩
        else none))

/-- Span records of one page (1-based page number). -/
def pageSpans (cfg : Config) (page : ℕ) (blocks : List Block) : List SpanRec :=
  blocks.flatMap (blockSpans cfg page)

/-- The span-collection loop of `_extract_headings`: an exception raised by
`page.get_text` on any page propagates out of the whole loop. -/
def collectAllSpans (cfg : Config) : List (Except Unit (List Block)) → ℕ → Except Unit (List SpanRec)
  | [], _ => Except.ok []
  | Except.error e :: _, _ => Except.error e
  | Except.ok blocks :: rest, n =>
    match collectAllSpans cfg rest (n + 1) with
    | Except.error e => Except.error e
    | Except.ok tail => Except.ok (pageSpans cfg n blocks ++ tail)

/-- The candidate-building loop of `_extract_headings`: keep a span as a
heading candidate iff its score reaches `min_heading_score`. -/
def headingCandidates (cfg : Config) (spans : List SpanRec) : List Candidate :=
  let median_size := pyMedian (spans.map SpanRec.size)
  spans.filterMap (fun sp =>
    let score := _calculate_heading_score cfg sp median_size
    if cfg.min_heading_score ≤ score then some ⟨sp.text, sp.page, sp.size, score⟩
    else none)

/-- The comparison of `heading_candidates.sort(key=lambda x: (-x["score"], x["page"]))`. -/
def candLE (a b : Candidate) : Bool :=
  decide (b.score < a.score ∨ (a.score = b.score ∧ a.page ≤ b.page))

/-- Python `round(x, 1)`: round to one decimal place.  (Python rounds binary
floats with ties to even; on exact rationals the embedding rounds halves up,
which agrees everywhere except exact `.05` ties.) -/
def roundTo1 (q : ℚ) : ℚ :=
  (Rat.floor (q * 10 + 1/2) : ℤ) / 10

/-- The distinct rounded candidate font sizes, sorted in descending order
(`sorted(size_groups.keys(), reverse=True)`). -/
def distinctSortedSizesDesc (cs : List Candidate) : List ℚ :=
  pySort (fun a b => decide (b ≤ a)) ((cs.map (fun c => roundTo1 c.size)).dedup)

/-- The outline entry `{"level": f"H{i}", "text": _clean_text(text), "page": page}`
built for candidate `c` at 1-based size rank `i`. -/
def mkHeading (i : ℕ) (c : Candidate) : Heading :=
  ⟨"H" ++ toString i, _clean_text c.text, c.page⟩

/-- The level-assignment loop: for the `i`-th remaining size (1-based), emit
every candidate of that rounded size as an `H{i}` heading. -/
def assignBySizes (cs : List Candidate) : ℕ → List ℚ → List Heading
  | _, [] => []
  | i, s :: rest =>
    ((cs.filter (fun c => decide (roundTo1 c.size = s))).map (mkHeading i)) ++
      assignBySizes cs (i + 1) rest

/-- `PDFOutlineExtractor._assign_heading_levels`: group candidates by rounded
size, keep the top 3 distinct sizes as H1/H2/H3, then stable-sort by page. -/
def _assign_heading_levels (cs : List Candidate) : List Heading :=
  if cs.isEmpty then []
  else
    pySort (fun a b => decide (a.page ≤ b.page))
      (assignBySizes cs 1 ((distinctSortedSizesDesc cs).take 3))

/-- `PDFOutlineExtractor._extract_headings`. -/
def _extract_headings (cfg : Config) (doc : PDFDoc) : Except Unit (List Heading) :=
  match collectAllSpans cfg doc.pages 1 with
  | Except.error e => Except.error e
  | Except.ok all_spans =>
    if all_spans.isEmpty then Except.ok []
    else
      Except.ok (_assign_heading_levels (pySort candLE (headingCandidates cfg all_spans)))

/-- A title candidate collected from the first page:
`{"text": text, "size": span["size"], "flags": span["flags"]}`. -/
structure TitleCand where
  text : String
  size : ℚ
  flags : ℕ
deriving DecidableEq, Repr

/-- The acceptance test of `_extract_title` on a stripped span text:
`len(text) > 5 and len(text) < 150 and not text.startswith(('http','www','@','#'))`. -/
def titleTextOK (t : String) : Bool :=
  decide (5 < t.data.length) && decide (t.data.length < 150) &&
  !("http".data.isPrefixOf t.data) && !("www".data.isPrefixOf t.data) &&
  !("@".data.isPrefixOf t.data) && !("#".data.isPrefixOf t.data)

/-- The title-candidate collection loop over the first page's blocks. -/
def titleCandidates (blocks : List Block) : List TitleCand :=
  blocks.flatMap (fun b =>
    match b.lines with
    | none => []
    | some lns =>
      lns.flatMap (fun ln =>
        ln.spans.filterMap (fun sp =>
          let t := pyStrip sp.text
          if titleTextOK t = true then some ⟨t, sp.size, sp.flags⟩ else none)))

/-- Python `max` over a numeric list, seeded with a first element: keeps the
current maximum, replacing it only on a strictly greater value. -/
def qListMax : ℚ → List ℚ → ℚ
  | acc, [] => acc
  | acc, x :: xs => qListMax (if acc < x then x else acc) xs

/-- Python `max(..., key=lambda x: len(x["text"]))`: first element of maximal
text length. -/
def pyMaxByLen : TitleCand → List TitleCand → TitleCand
  | acc, [] => acc
  | acc, x :: xs => pyMaxByLen (if acc.text.data.length < x.text.data.length then x else acc) xs

/-- The metadata fallback at the end of `_extract_title`: the metadata title
when present and truthy (non-empty), else the fixed placeholder. -/
def metadataFallback (doc : PDFDoc) : String :=
  match doc.metadata_title with
  | some t => if t = "" then "Document Title" else t
  | none => "Document Title"

/-- `PDFOutlineExtractor._extract_title`: largest-font candidate of the first
page (longest text among ties), else metadata title, else `"Document Title"`.
An exception while reading the first page (or a missing first page) skips the
metadata fallback, exactly as the `except` clause does. -/
def _extract_title (doc : PDFDoc) : String :=
  match doc.pages.head? with
  | some (Except.ok blocks) =>
    match titleCandidates blocks with
    | c :: rest =>
      let max_size := qListMax c.size (rest.map TitleCand.size)
      match (c :: rest).filter (fun x => decide (x.size = max_size)) with
      | l0 :: ls => _clean_text (pyMaxByLen l0 ls).text
      | [] => metadataFallback doc
    | [] => metadataFallback doc
  | some (Except.error _) => "Document Title"
  | none => "Document Title"

/-- The degraded result returned by the `except` clause of `extract_outline`. -/
def errorOutline (stem : String) : Outline :=
  ⟨"Error processing " ++ stem, []⟩

/-- `PDFOutlineExtractor.extract_outline`: open the document (`fitz.open` may
fail), extract title and headings; any exception inside the `try` block
degrades to `errorOutline` for the file's stem. -/
def extract_outline (cfg : Config) (stem : String) (input : Except Unit PDFDoc) : Outline :=
  match input with
  | Except.error _ => errorOutline stem
  | Except.ok doc =>
    match _extract_headings cfg doc with
    | Except.error _ => errorOutline stem
    | Except.ok headings => ⟨_extract_title doc, headings⟩

/-- A placeholder bounding box for concrete test documents. -/
def bbox0 : ℚ × ℚ × ℚ × ℚ := (0, 0, 0, 0)

/-- One page whose single line is the bold heading "1. Introduction" at size 18. -/
def pageOkDoc : PDFDoc :=
  ⟨[Except.ok [⟨some [⟨[⟨"1. Introduction", 18, 16, bbox0⟩]⟩]⟩]], none⟩

/-- A document whose single page repeats the same bold heading line twice. -/
def dupDoc : PDFDoc :=
  ⟨[Except.ok [⟨some [⟨[⟨"1. Introduction", 18, 16, bbox0⟩]⟩,
                      ⟨[⟨"1. Introduction", 18, 16, bbox0⟩]⟩]⟩]], none⟩

/-- An ordinary body-text line (64 characters, not bold, no heading pattern). -/
def bodyText : String := "The quick brown fox jumps over the lazy dog near the river bank."

/-- The numbered-manual scenario document with ordinary body text at the
median size 11: page 1 holds only "1. Introduction" (size 18, bold), page 2
holds "1.1 Background" (size 14, bold) plus a body line, page 3 two body
lines; the median of the five span sizes is 11. -/
def manualDoc : PDFDoc :=
  ⟨[Except.ok [⟨some [⟨[⟨"1. Introduction", 18, 16, bbox0⟩]⟩]⟩],
    Except.ok [⟨some [⟨[⟨"1.1 Background", 14, 16, bbox0⟩]⟩, ⟨[⟨bodyText, 11, 0, bbox0⟩]⟩]⟩],
    Except.ok [⟨some [⟨[⟨bodyText, 11, 0, bbox0⟩]⟩, ⟨[⟨bodyText, 11, 0, bbox0⟩]⟩]⟩]], none⟩

/-- A 201-character body line, long enough to zero the length sub-score. -/
def longBody : String := ⟨List.replicate 201 'a'⟩

/-- The numbered-manual scenario document whose body lines are all longer than
`max_heading_length`, so that no body span reaches the candidate threshold. -/
def manualDoc2 : PDFDoc :=
  ⟨[Except.ok [⟨some [⟨[⟨"1. Introduction", 18, 16, bbox0⟩]⟩]⟩],
    Except.ok [⟨some [⟨[⟨"1.1 Background", 14, 16, bbox0⟩]⟩, ⟨[⟨longBody, 11, 0, bbox0⟩]⟩]⟩],
    Except.ok [⟨some [⟨[⟨longBody, 11, 0, bbox0⟩]⟩, ⟨[⟨longBody, 11, 0, bbox0⟩]⟩]⟩]], none⟩

/-- A form-style document of short field labels (each under 15 characters and
at most 2 tokens). -/
def formDoc : PDFDoc :=
  ⟨[Except.ok [⟨some [⟨[⟨"Name:", 12, 0, bbox0⟩]⟩, ⟨[⟨"Date:", 12, 0, bbox0⟩]⟩,
                      ⟨[⟨"Signature", 12, 0, bbox0⟩]⟩]⟩]], none⟩

/-- A document whose spans all strip to fewer than 3 characters. -/
def shortDoc : PDFDoc :=
  ⟨[Except.ok [⟨some [⟨[⟨"ab", 12, 0, bbox0⟩]⟩, ⟨[⟨" x ", 12, 0, bbox0⟩]⟩]⟩]], none⟩

/-- A document whose first page reads fine (and holds a clear heading) but
whose second page raises inside `page.get_text`. -/
def pageFailDoc : PDFDoc :=
  ⟨[Except.ok [⟨some [⟨[⟨"1. Introduction", 18, 16, bbox0⟩]⟩]⟩], Except.error ()], none⟩

/-- A first page with two title candidates of different sizes, plus a
metadata title. -/
def titleDoc : PDFDoc :=
  ⟨[Except.ok [⟨some [⟨[⟨"Hello World Title", 20, 0, bbox0⟩, ⟨"small text here", 10, 0, bbox0⟩]⟩]⟩]],
   some "Meta Title"⟩

/-- A first page that contains text but no valid title candidate (one span too
short, one starting with "http"), and no metadata title. -/
def noCandDoc : PDFDoc :=
  ⟨[Except.ok [⟨some [⟨[⟨"Hi", 20, 0, bbox0⟩, ⟨"http example dot com", 10, 0, bbox0⟩]⟩]⟩]], none⟩

/-- The spec's size sub-score: `min(fontSize / medianFontSize, 2.0) / 2.0`. -/
def specSizeScore (fontSize medianFontSize : ℚ) : ℚ :=
  pyMin (fontSize / medianFontSize) 2 / 2

/-- Modelled from the spec: the claimed weighted heading score
`0.35*sizeScore + 0.25*boldScore + 0.15*positionScore + 0.15*patternScore +
0.10*lengthScore`, clamped to at most 1. -/
def specHeadingScoreC1 (sp : SpanRec) (m : ℚ) : ℚ :=
  pyMin (35/100 * specSizeScore sp.size m
     + 25/100 * (if sp.flags &&& 16 ≠ 0 then 1 else 0)
     + 15/100 * (7/10)
     + 15/100 * (if matchesHeadingPattern sp.text = true then 1 else 0)
     + 10/100 * (if 3 ≤ sp.text.data.length ∧ sp.text.data.length ≤ 200 then 1 else 0)) 1

/-- C1, stated for the span records of one document: the computed score equals
the spec's weighted formula, and the span is kept as a heading candidate iff
its score reaches 3/10. -/
def C1Prop (spans : List SpanRec) (sp : SpanRec) : Prop :=
  _calculate_heading_score defaultConfig sp (pyMedian (spans.map SpanRec.size)) =
      specHeadingScoreC1 sp (pyMedian (spans.map SpanRec.size)) ∧
  ((⟨sp.text, sp.page, sp.size,
      _calculate_heading_score defaultConfig sp (pyMedian (spans.map SpanRec.size))⟩ : Candidate) ∈
        headingCandidates defaultConfig spans ↔
    3/10 ≤ _calculate_heading_score defaultConfig sp (pyMedian (spans.map SpanRec.size)))

/-- C2, stated for one list of accepted candidates: the distinct rounded sizes
are deduplicated and sorted descending, and a candidate appears (as an `H(i+1)`
heading) in the result exactly when its rounded size sits at an index `i < 3`
of that list. -/
def C2Prop (cs : List Candidate) : Prop :=
  (distinctSortedSizesDesc cs).Nodup ∧
  (distinctSortedSizesDesc cs).Pairwise (fun a b => b ≤ a) ∧
  (∀ s, s ∈ distinctSortedSizesDesc cs ↔ ∃ c ∈ cs, roundTo1 c.size = s) ∧
  (∀ h ∈ _assign_heading_levels cs, ∃ c ∈ cs, ∃ i, i < 3 ∧
      (distinctSortedSizesDesc cs)[i]? = some (roundTo1 c.size) ∧ h = mkHeading (i + 1) c) ∧
  (∀ c ∈ cs, ∀ i, i < 3 → (distinctSortedSizesDesc cs)[i]? = some (roundTo1 c.size) →
      mkHeading (i + 1) c ∈ _assign_heading_levels cs)

/-- Decidable form of "every span of this page strips to fewer than
`min_heading_length` characters" (failing pages count as trivially short). -/
def pageAllShort (cfg : Config) (pg : Except Unit (List Block)) : Bool :=
  match pg with
  | Except.error _ => true
  | Except.ok blocks =>
    blocks.all (fun b =>
      match b.lines with
      | none => true
      | some lns =>
        lns.all (fun ln =>
          ln.spans.all (fun sp => decide ((pyStrip sp.text).data.length < cfg.min_heading_length))))

/-- Decidable form of "every span of every page strips to fewer than
`min_heading_length` characters". -/
def allSpansShort (cfg : Config) (doc : PDFDoc) : Bool :=
  doc.pages.all (pageAllShort cfg)

/-- C5 (amended), stated for one document: every collected span record has at
least 3 characters, and a document of under-3-character fragments yields an
empty outline. -/
def C5Prop (doc : PDFDoc) : Prop :=
  (∀ spans, collectAllSpans defaultConfig doc.pages 1 = Except.ok spans →
      ∀ sp ∈ spans, 3 ≤ sp.text.data.length) ∧
  (∀ out, _extract_headings defaultConfig doc = Except.ok out → out = [])

/-- C6, stated for one document whose first page reads as `blocks`: with
candidates present the title is the cleaned text of a largest-size candidate of
maximal length among that size, and with no candidates it falls back to the
metadata title, else the fixed placeholder. -/
def C6Prop (doc : PDFDoc) (blocks : List Block) : Prop :=
  (titleCandidates blocks = [] → _extract_title doc = metadataFallback doc) ∧
  (titleCandidates blocks ≠ [] →
    ∃ c ∈ titleCandidates blocks,
      _extract_title doc = _clean_text c.text ∧
      (∀ x ∈ titleCandidates blocks, x.size ≤ c.size) ∧
      (∀ x ∈ titleCandidates blocks, x.size = c.size → x.text.data.length ≤ c.text.data.length))

/-- Decidable form of "no span of the first page's blocks passes the title
candidate test". -/
def noTitleCandidateSpans (blocks : List Block) : Bool :=
  blocks.all (fun b =>
    match b.lines with
    | none => true
    | some lns =>
      lns.all (fun ln => ln.spans.all (fun sp => !(titleTextOK (pyStrip sp.text)))))

/-- C10, stated for one document whose first page reads as `blocks`: every
title candidate is the stripped text of a first-page span and satisfies the
length/prefix bounds, and when every span violates them the fallback chain is
used. -/
def C10Prop (doc : PDFDoc) (blocks : List Block) : Prop :=
  (∀ tc ∈ titleCandidates blocks,
      (5 < tc.text.data.length ∧ tc.text.data.length < 150 ∧
       "http".data.isPrefixOf tc.text.data = false ∧
       "www".data.isPrefixOf tc.text.data = false ∧
       "@".data.isPrefixOf tc.text.data = false ∧
       "#".data.isPrefixOf tc.text.data = false) ∧
      ∃ b ∈ blocks, ∃ lns, b.lines = some lns ∧ ∃ ln ∈ lns, ∃ sp ∈ ln.spans,
        tc.text = pyStrip sp.text) ∧
  (noTitleCandidateSpans blocks = true → _extract_title doc = metadataFallback doc)

theorem pyInsert_perm (le : α → α → Bool) (x : α) (l : List α) :
    (pyInsert le x l).Perm (x :: l) := by
  induction l with
  | nil => simp [pyInsert]
  | cons y ys ih =>
    by_cases h : le y x = true
    · simpa [pyInsert, h] using (ih.cons y).trans (List.Perm.swap x y ys)
    · simp [pyInsert, h]

theorem pySortAux_perm (le : α → α → Bool) (l acc : List α) :
    (l.foldl (fun acc x => pyInsert le x acc) acc).Perm (acc ++ l) := by
  induction l generalizing acc with
  | nil => simp
  | cons x xs ih =>
    refine (ih (pyInsert le x acc)).trans ?_
    refine (((pyInsert_perm le x acc).append_right xs).trans ?_)
    exact (List.perm_middle).symm

theorem pySort_perm (le : α → α → Bool) (l : List α) : (pySort le l).Perm l := by
  simpa [pySort] using pySortAux_perm le l []

theorem pySort_mem (le : α → α → Bool) (l : List α) (a : α) :
    a ∈ pySort le l ↔ a ∈ l :=
  (pySort_perm le l).mem_iff

theorem pySort_length (le : α → α → Bool) (l : List α) :
    (pySort le l).length = l.length :=
  (pySort_perm le l).length_eq

theorem pyInsert_pairwise {le : α → α → Bool}
    (htot : ∀ a b, le a b = true ∨ le b a = true)
    (htrans : ∀ a b c, le a b = true → le b c = true → le a c = true)
    (x : α) {l : List α} (h : l.Pairwise (fun a b => le a b = true)) :
    (pyInsert le x l).Pairwise (fun a b => le a b = true) := by
  induction l with
  | nil => simp [pyInsert]
  | cons y ys ih =>
    rw [List.pairwise_cons] at h
    by_cases hy : le y x = true
    · simp only [pyInsert, if_pos hy]
      rw [List.pairwise_cons]
      refine ⟨fun z hz => ?_, ih h.2⟩
      rcases List.mem_cons.mp ((pyInsert_perm le x ys).mem_iff.mp hz) with rfl | hzys
      · exact hy
      · exact h.1 z hzys
    · have hx : le x y = true := (htot x y).resolve_right (fun hc => hy hc)
      simp only [pyInsert, if_neg hy]
      rw [List.pairwise_cons]
      refine ⟨fun z hz => ?_, List.pairwise_cons.mpr h⟩
      rcases List.mem_cons.mp hz with rfl | hzys
      · exact hx
      · exact htrans x y z hx (h.1 z hzys)

theorem pySort_pairwise {le : α → α → Bool}
    (htot : ∀ a b, le a b = true ∨ le b a = true)
    (htrans : ∀ a b c, le a b = true → le b c = true → le a c = true)
    (l : List α) : (pySort le l).Pairwise (fun a b => le a b = true) := by
  suffices h : ∀ (l acc : List α), acc.Pairwise (fun a b => le a b = true) →
      (l.foldl (fun acc x => pyInsert le x acc) acc).Pairwise (fun a b => le a b = true) by
    exact h l [] (by simp)
  intro l
  induction l with
  | nil => intro acc hacc; simpa using hacc
  | cons x xs ih =>
    intro acc hacc
    exact ih (pyInsert le x acc) (pyInsert_pairwise htot htrans x hacc)

/-- C3 counterexample: on a page that repeats the same heading line twice, the
produced outline holds two `Heading` entries with identical `(text, page)` —
no deduplication takes place, so the claimed uniqueness invariant fails. -/
theorem C3_duplicate_counterexample :
    _extract_headings defaultConfig dupDoc =
      Except.ok [⟨"H1", "1. Introduction", 1⟩, ⟨"H1", "1. Introduction", 1⟩] ∧
    ¬ ([(⟨"H1", "1. Introduction", 1⟩ : Heading), ⟨"H1", "1. Introduction", 1⟩].Pairwise
        (fun a b => ¬(a.text = b.text ∧ a.page = b.page))) := by
  refine ⟨by decide, ?_⟩
  intro h
  exact (List.pairwise_cons.mp h).1 _ (by simp) ⟨rfl, rfl⟩

/-- C4 counterexample: `manualDoc` satisfies the scenario (3 pages, page 1 is
exactly the line "1. Introduction" at size 18 bold, page 2 holds
"1.1 Background" at size 14 bold, and the median span font size is 11), yet
with ordinary body text at size 11 the extraction emits three extra `H3`
entries, not the claimed two-entry outline. -/
theorem C4_numbered_manual_counterexample :
    (collectAllSpans defaultConfig manualDoc.pages 1).map
        (fun l => pyMedian (l.map SpanRec.size)) = Except.ok 11 ∧
    _extract_headings defaultConfig manualDoc =
      Except.ok [⟨"H1", "1. Introduction", 1⟩, ⟨"H2", "1.1 Background", 2⟩,
                 ⟨"H3", bodyText, 2⟩, ⟨"H3", bodyText, 3⟩, ⟨"H3", bodyText, 3⟩] ∧
    _extract_headings defaultConfig manualDoc ≠
      Except.ok [⟨"H1", "1. Introduction", 1⟩, ⟨"H2", "1.1 Background", 2⟩] := by
  set_option maxRecDepth 100000 in decide

/-- C4 amended: in the same scenario with every body span outside the accepted
length bound (longer than `max_heading_length`, hence scoring below 3/10), the
extraction yields exactly the claimed two-entry outline. -/
theorem C4_numbered_manual_amended :
    (collectAllSpans defaultConfig manualDoc2.pages 1).map
        (fun l => pyMedian (l.map SpanRec.size)) = Except.ok 11 ∧
    _extract_headings defaultConfig manualDoc2 =
      Except.ok [⟨"H1", "1. Introduction", 1⟩, ⟨"H2", "1.1 Background", 2⟩] := by
  set_option maxRecDepth 100000 in decide

/-- C5 counterexample: a document made only of short field labels ("Name:",
"Date:", "Signature" — each under 15 characters and at most 2 tokens) does not
yield an empty outline; all three labels are emitted as `H1` headings, because
no short-fragment noise filter exists in the code. -/
theorem C5_form_document_counterexample :
    _extract_headings defaultConfig formDoc =
      Except.ok [⟨"H1", "Name:", 1⟩, ⟨"H1", "Date:", 1⟩, ⟨"H1", "Signature", 1⟩] ∧
    _extract_headings defaultConfig formDoc ≠ Except.ok [] := by
  decide

/-- C7 counterexample: page 1 alone yields the heading "1. Introduction", but
adding a second page whose layout read fails makes `extract_outline` return the
degraded error structure with an empty outline — the page-level failure is
fatal to the whole document instead of being skipped locally. -/
theorem C7_page_failure_counterexample :
    pageFailDoc.pages = pageOkDoc.pages ++ [Except.error ()] ∧
    _extract_headings defaultConfig pageOkDoc =
      Except.ok [⟨"H1", "1. Introduction", 1⟩] ∧
    extract_outline defaultConfig "sample" (Except.ok pageFailDoc) =
      ⟨"Error processing sample", []⟩ := by
  decide

/-- C9 counterexample: `_clean_text` is not idempotent — on "a @ b" the
artifact removal runs after whitespace collapsing, leaving the double space
"a  b", which a second application collapses to "a b". -/
theorem C9_clean_not_idempotent :
    _clean_text "a @ b" = "a  b" ∧
    _clean_text (_clean_text "a @ b") = "a b" ∧
    _clean_text (_clean_text "a @ b") ≠ _clean_text "a @ b" := by
  decide

/-- C8: whenever opening the document fails, or heading extraction raises on
any page, `extract_outline` returns the well-formed degraded structure whose
title is `"Error processing <stem>"` and whose outline is empty; no exception
escapes a document's processing. -/
theorem C8_error_degradation (cfg : Config) (stem : String) (input : Except Unit PDFDoc)
    (h : input = Except.error () ∨
         ∃ doc, input = Except.ok doc ∧ _extract_headings cfg doc = Except.error ()) :
    extract_outline cfg stem input = ⟨"Error processing " ++ stem, []⟩ := by
  rcases h with rfl | ⟨doc, rfl, hdoc⟩
  · rfl
  · simp [extract_outline, hdoc, errorOutline]

/-- Witness for C8 at a concrete failing open. -/
theorem C8_error_degradation_witness :
    extract_outline defaultConfig "file" (Except.error ()) = ⟨"Error processing file", []⟩ :=
  C8_error_degradation defaultConfig "file" (Except.error ()) (Or.inl rfl)

theorem collectAllSpans_error (cfg : Config) (pages : List (Except Unit (List Block)))
    (h : Except.error () ∈ pages) :
    ∀ n, collectAllSpans cfg pages n = Except.error () := by
  induction pages with
  | nil => cases h
  | cons p rest ih =>
    intro n
    cases p with
    | error e => cases e; rfl
    | ok blocks =>
      have hr : Except.error () ∈ rest := by
        rcases List.mem_cons.mp h with h1 | h2
        · exact absurd h1 (by simp)
        · exact h2
      simp [collectAllSpans, ih hr (n + 1)]

/-- C7 (amended): a failure while reading one page's layout is caught one
level up, in `extract_outline`, which returns the degraded error structure for
the whole document — no exception escapes, but the remaining pages are not
processed and every page's contributions are dropped. -/
theorem C7_page_failure_document_level (cfg : Config) (stem : String) (doc : PDFDoc)
    (h : Except.error () ∈ doc.pages) :
    extract_outline cfg stem (Except.ok doc) = errorOutline stem := by
  simp [extract_outline, _extract_headings, collectAllSpans_error cfg doc.pages h 1, errorOutline]

/-- Witness for C7 (amended) at the concrete two-page document. -/
theorem C7_page_failure_document_level_witness :
    Except.error () ∈ pageFailDoc.pages ∧
    extract_outline defaultConfig "sample2" (Except.ok pageFailDoc) = errorOutline "sample2" :=
  ⟨by decide, C7_page_failure_document_level defaultConfig "sample2" pageFailDoc (by decide)⟩

theorem length_filter_or_disjoint {α : Type} (p q : α → Bool)
    (hdis : ∀ a, ¬(p a = true ∧ q a = true)) (l : List α) :
    (l.filter (fun a => p a || q a)).length =
      (l.filter p).length + (l.filter q).length := by
  induction l with
  | nil => simp
  | cons a l ih =>
    by_cases hp : p a = true
    · have hq : q a = false := by
        cases hqv : q a
        · rfl
        · exact absurd ⟨hp, hqv⟩ (hdis a)
      simp [List.filter_cons, hp, hq, ih]
      omega
    · simp only [Bool.not_eq_true] at hp
      by_cases hq : q a = true
      · simp [List.filter_cons, hp, hq, ih]
        omega
      · simp only [Bool.not_eq_true] at hq
        simp [List.filter_cons, hp, hq, ih]

theorem assignBySizes_length (cs : List Candidate) (sizes : List ℚ) (hn : sizes.Nodup) :
    ∀ i, (assignBySizes cs i sizes).length =
      (cs.filter (fun c => decide (roundTo1 c.size ∈ sizes))).length := by
  induction sizes with
  | nil => intro i; simp [assignBySizes]
  | cons s rest ih =>
    intro i
    rw [List.nodup_cons] at hn
    have hsplit := length_filter_or_disjoint
      (fun c : Candidate => decide (roundTo1 c.size = s))
      (fun c : Candidate => decide (roundTo1 c.size ∈ rest))
      (by
        intro c hc
        simp only [decide_eq_true_eq] at hc
        exact hn.1 (hc.1 ▸ hc.2)) cs
    simp only [assignBySizes, List.length_append, List.length_map, ih hn.2]
    simp only [List.mem_cons, Bool.decide_or] at hsplit ⊢
    omega

/-- C3 (amended): no deduplication by `(text, page)` takes place — the outline
preserves, with multiplicity, every accepted candidate whose rounded font size
is among the top 3 distinct sizes, so exact duplicates survive. -/
theorem C3_no_dedup_multiplicity (cs : List Candidate) :
    (_assign_heading_levels cs).length =
      (cs.filter (fun c =>
        decide (roundTo1 c.size ∈ (distinctSortedSizesDesc cs).take 3))).length := by
  by_cases hcs : cs.isEmpty
  · rw [List.isEmpty_iff] at hcs
    subst hcs
    simp [_assign_heading_levels]
  · rw [_assign_heading_levels, if_neg (by simpa using hcs), pySort_length]
    have hnd : (distinctSortedSizesDesc cs).Nodup :=
      ((pySort_perm (fun a b => decide (b ≤ a)) _).nodup_iff).mpr (List.nodup_dedup _)
    exact assignBySizes_length cs _ (hnd.sublist (List.take_sublist 3 _)) 1

theorem pageSpans_length_ge (cfg : Config) (n : ℕ) (blocks : List Block) (sp : SpanRec)
    (h : sp ∈ pageSpans cfg n blocks) :
    cfg.min_heading_length ≤ sp.text.data.length := by
  obtain ⟨b, hb, hsp⟩ := List.mem_flatMap.mp h
  rcases hbl : b.lines with _ | lns
  · rw [blockSpans, hbl] at hsp
    cases hsp
  · rw [blockSpans, hbl] at hsp
    obtain ⟨ln, hln, hsp2⟩ := List.mem_flatMap.mp hsp
    obtain ⟨a, ha, hfa⟩ := List.mem_filterMap.mp hsp2
    by_cases hc : cfg.min_heading_length ≤ (pyStrip a.text).data.length
    · simp only [if_pos hc] at hfa
      cases hfa
      exact hc
    · simp only [if_neg hc] at hfa
      cases hfa

theorem collectAllSpans_length_ge (cfg : Config) (pages : List (Except Unit (List Block))) :
    ∀ n spans, collectAllSpans cfg pages n = Except.ok spans →
      ∀ sp ∈ spans, cfg.min_heading_length ≤ sp.text.data.length := by
  induction pages with
  | nil =>
    intro n spans h sp hsp
    rw [collectAllSpans] at h
    cases h
    cases hsp
  | cons p rest ih =>
    intro n spans h sp hsp
    cases p with
    | error e =>
      rw [collectAllSpans] at h
      cases h
    | ok blocks =>
      rw [collectAllSpans] at h
      rcases hr : collectAllSpans cfg rest (n + 1) with e | tail
      · rw [hr] at h
        cases h
      · rw [hr] at h
        cases h
        rcases List.mem_append.mp hsp with h1 | h2
        · exact pageSpans_length_ge cfg n blocks sp h1
        · exact ih (n + 1) tail hr sp h2

theorem pageSpans_nil_of_short (cfg : Config) (n : ℕ) (blocks : List Block)
    (h : pageAllShort cfg (Except.ok blocks) = true) :
    pageSpans cfg n blocks = [] := by
  rw [pageSpans, List.flatMap_eq_nil_iff]
  intro b hb
  rw [pageAllShort, List.all_eq_true] at h
  have hbs := h b hb
  rcases hbl : b.lines with _ | lns
  · rw [blockSpans, hbl]
  · rw [blockSpans, hbl]
    rw [hbl, List.all_eq_true] at hbs
    rw [List.flatMap_eq_nil_iff]
    intro ln hln
    have hls := hbs ln hln
    rw [List.all_eq_true] at hls
    rw [List.filterMap_eq_nil_iff]
    intro a ha
    have := hls a ha
    simp only [decide_eq_true_eq] at this
    simp only [if_neg (by omega : ¬ cfg.min_heading_length ≤ (pyStrip a.text).data.length)]

theorem collectAllSpans_of_short (cfg : Config) (pages : List (Except Unit (List Block)))
    (h : pages.all (pageAllShort cfg) = true) :
    ∀ n, collectAllSpans cfg pages n = Except.error () ∨
         collectAllSpans cfg pages n = Except.ok [] := by
  induction pages with
  | nil => intro n; right; rfl
  | cons p rest ih =>
    intro n
    rw [List.all_cons, Bool.and_eq_true] at h
    cases p with
    | error e => left; cases e; rfl
    | ok blocks =>
      rcases ih h.2 (n + 1) with he | hok
      · left
        rw [collectAllSpans, he]
      · right
        rw [collectAllSpans, hok, pageSpans_nil_of_short cfg n blocks h.1]
        rfl

/-- C5 (amended): every span record entering heading consideration has at
least `min_heading_length = 3` characters after stripping, and a document all
of whose spans strip to fewer than 3 characters yields an empty outline.  (The
claimed "at most 2 tokens and under 15 characters" noise test does not exist
in the code.) -/
theorem C5_short_line_exclusion (doc : PDFDoc)
    (h : allSpansShort defaultConfig doc = true) : C5Prop doc := by
  constructor
  · intro spans hs sp hsp
    exact collectAllSpans_length_ge defaultConfig doc.pages 1 spans hs sp hsp
  · intro out hout
    rcases collectAllSpans_of_short defaultConfig doc.pages h 1 with he | hok
    · rw [_extract_headings, he] at hout
      cases hout
    · rw [_extract_headings, hok] at hout
      simp only [List.isEmpty_nil, if_pos] at hout
      cases hout
      rfl

/-- Witness for C5 (amended) at a concrete all-short document. -/
theorem C5_short_line_exclusion_witness :
    allSpansShort defaultConfig shortDoc = true ∧ C5Prop shortDoc :=
  ⟨by decide, C5_short_line_exclusion shortDoc (by decide)⟩

theorem calc_score_eq_spec (sp : SpanRec) (m : ℚ) :
    _calculate_heading_score defaultConfig sp m = specHeadingScoreC1 sp m := by
  have hlen : (if sp.text.data.length > defaultConfig.max_heading_length then (0:ℚ)
      else if sp.text.data.length < defaultConfig.min_heading_length then 0 else 1) =
      (if 3 ≤ sp.text.data.length ∧ sp.text.data.length ≤ 200 then (1:ℚ) else 0) := by
    simp only [defaultConfig]
    split_ifs <;> first | rfl | omega
  simp only [_calculate_heading_score, specHeadingScoreC1, specSizeScore]
  rw [hlen]
  simp only [defaultConfig]
  congr 1
  ring

theorem headingCandidates_score_ge (cfg : Config) (spans : List SpanRec) (c : Candidate)
    (h : c ∈ headingCandidates cfg spans) : cfg.min_heading_score ≤ c.score := by
  simp only [headingCandidates] at h
  obtain ⟨sp, hsp, hfa⟩ := List.mem_filterMap.mp h
  by_cases hc : cfg.min_heading_score ≤
      _calculate_heading_score cfg sp (pyMedian (spans.map SpanRec.size))
  · rw [if_pos hc] at hfa
    cases hfa
    exact hc
  · rw [if_neg hc] at hfa
    cases hfa

/-- C1: for every document (with its collected span records), the heading
score of a span equals the spec's weighted formula
`0.35*sizeScore + 0.25*boldScore + 0.15*positionScore + 0.15*patternScore +
0.10*lengthScore` with `sizeScore = min(fontSize/medianFontSize, 2)/2`, the
total clamped to at most 1; and the span enters the heading-candidate list iff
its score is at least `3/10`, the default `min_heading_score`. -/
theorem C1_heading_score_formula (doc : PDFDoc) (spans : List SpanRec)
    (hs : collectAllSpans defaultConfig doc.pages 1 = Except.ok spans)
    (sp : SpanRec) (hsp : sp ∈ spans) : C1Prop spans sp := by
  refine ⟨calc_score_eq_spec sp _, ?_, ?_⟩
  · intro hmem
    have := headingCandidates_score_ge defaultConfig spans _ hmem
    exact this
  · intro hge
    simp only [headingCandidates]
    apply List.mem_filterMap.mpr
    refine ⟨sp, hsp, ?_⟩
    rw [show defaultConfig.min_heading_score = 3/10 from rfl, if_pos hge]

/-- Witness for C1 at the one-span document `pageOkDoc`. -/
theorem C1_heading_score_formula_witness :
    collectAllSpans defaultConfig pageOkDoc.pages 1 =
      Except.ok [⟨"1. Introduction", 18, 16, 1, bbox0⟩] ∧
    (⟨"1. Introduction", 18, 16, 1, bbox0⟩ : SpanRec) ∈
      [(⟨"1. Introduction", 18, 16, 1, bbox0⟩ : SpanRec)] ∧
    C1Prop [⟨"1. Introduction", 18, 16, 1, bbox0⟩] ⟨"1. Introduction", 18, 16, 1, bbox0⟩ :=
  ⟨by decide, by decide,
   C1_heading_score_formula pageOkDoc [⟨"1. Introduction", 18, 16, 1, bbox0⟩]
     (by decide) ⟨"1. Introduction", 18, 16, 1, bbox0⟩ (by decide)⟩

theorem qListMax_ge_acc (acc : ℚ) (l : List ℚ) : acc ≤ qListMax acc l := by
  induction l generalizing acc with
  | nil => exact le_refl acc
  | cons x xs ih =>
    refine le_trans ?_ (ih (if acc < x then x else acc))
    split_ifs with h
    · exact le_of_lt h
    · exact le_refl acc

theorem qListMax_ge_mem (acc : ℚ) (l : List ℚ) (x : ℚ) (hx : x ∈ l) :
    x ≤ qListMax acc l := by
  induction l generalizing acc with
  | nil => cases hx
  | cons y ys ih =>
    rcases List.mem_cons.mp hx with rfl | hx'
    · refine le_trans ?_ (qListMax_ge_acc (if acc < x then x else acc) ys)
      split_ifs with h
      · exact le_refl x
      · exact le_of_not_lt h
    · exact ih _ hx'

theorem qListMax_mem_or (acc : ℚ) (l : List ℚ) :
    qListMax acc l = acc ∨ qListMax acc l ∈ l := by
  induction l generalizing acc with
  | nil => left; rfl
  | cons x xs ih =>
    rcases ih (if acc < x then x else acc) with h | h
    · rw [qListMax, h]
      split_ifs with hx
      · right; exact List.mem_cons_self x xs
      · left; rfl
    · right; exact List.mem_cons_of_mem x h

theorem pyMaxByLen_ge_acc (acc : TitleCand) (l : List TitleCand) :
    acc.text.data.length ≤ (pyMaxByLen acc l).text.data.length := by
  induction l generalizing acc with
  | nil => exact Nat.le_refl _
  | cons x xs ih =>
    refine Nat.le_trans ?_ (ih (if acc.text.data.length < x.text.data.length then x else acc))
    split_ifs with h
    · exact Nat.le_of_lt h
    · exact Nat.le_refl _

theorem pyMaxByLen_ge_mem (acc : TitleCand) (l : List TitleCand) (x : TitleCand)
    (hx : x ∈ l) : x.text.data.length ≤ (pyMaxByLen acc l).text.data.length := by
  induction l generalizing acc with
  | nil => cases hx
  | cons y ys ih =>
    rcases List.mem_cons.mp hx with rfl | hx'
    · refine Nat.le_trans ?_
        (pyMaxByLen_ge_acc (if acc.text.data.length < x.text.data.length then x else acc) ys)
      split_ifs with h
      · exact Nat.le_refl _
      · exact Nat.le_of_not_lt h
    · exact ih _ hx'

theorem pyMaxByLen_mem_or (acc : TitleCand) (l : List TitleCand) :
    pyMaxByLen acc l = acc ∨ pyMaxByLen acc l ∈ l := by
  induction l generalizing acc with
  | nil => left; rfl
  | cons x xs ih =>
    rcases ih (if acc.text.data.length < x.text.data.length then x else acc) with h | h
    · rw [pyMaxByLen, h]
      split_ifs with hx
      · right; exact List.mem_cons_self x xs
      · left; rfl
    · right; exact List.mem_cons_of_mem x h

/-- C6: title selection picks, among the first page's candidates, one of
exactly maximal font size whose text length is maximal among that size
(cleaned); with no candidates it falls back to the metadata title when
truthy, else the fixed placeholder `"Document Title"` (so the filename-stem
step of the claimed chain is never reached). -/
theorem C6_title_selection (doc : PDFDoc) (blocks : List Block)
    (hp : doc.pages.head? = some (Except.ok blocks)) : C6Prop doc blocks := by
  constructor
  · intro hempty
    simp only [_extract_title, hp, hempty, metadataFallback]
  · intro hne
    rcases hcands : titleCandidates blocks with _ | ⟨c, rest⟩
    · exact absurd hcands hne
    · have hmem_or := qListMax_mem_or c.size (rest.map TitleCand.size)
      have hattain : ∃ c0 ∈ c :: rest, c0.size = qListMax c.size (rest.map TitleCand.size) := by
        rcases hmem_or with h | h
        · exact ⟨c, List.mem_cons_self c rest, h.symm⟩
        · obtain ⟨c0, hc0, he⟩ := List.mem_map.mp h
          exact ⟨c0, List.mem_cons_of_mem c hc0, he⟩
      have hub : ∀ x ∈ c :: rest, x.size ≤ qListMax c.size (rest.map TitleCand.size) := by
        intro x hx
        rcases List.mem_cons.mp hx with rfl | hx'
        · exact qListMax_ge_acc _ _
        · exact qListMax_ge_mem _ _ _ (List.mem_map_of_mem TitleCand.size hx')
      obtain ⟨c0, hc0, hc0s⟩ := hattain
      have hfilter_mem : c0 ∈ (c :: rest).filter
          (fun x => decide (x.size = qListMax c.size (rest.map TitleCand.size))) :=
        List.mem_filter.mpr ⟨hc0, by simp [hc0s]⟩
      rcases hflt : (c :: rest).filter
          (fun x => decide (x.size = qListMax c.size (rest.map TitleCand.size))) with _ | ⟨l0, ls⟩
      · rw [hflt] at hfilter_mem
        cases hfilter_mem
      · have hchmem : pyMaxByLen l0 ls ∈ (c :: rest).filter
            (fun x => decide (x.size = qListMax c.size (rest.map TitleCand.size))) := by
          rw [hflt]
          rcases pyMaxByLen_mem_or l0 ls with h | h
          · rw [h]; exact List.mem_cons_self l0 ls
          · exact List.mem_cons_of_mem l0 h
        have hchsize : (pyMaxByLen l0 ls).size = qListMax c.size (rest.map TitleCand.size) := by
          have := (List.mem_filter.mp hchmem).2
          simpa using this
        have hchons : pyMaxByLen l0 ls ∈ c :: rest := (List.mem_filter.mp hchmem).1
        refine ⟨pyMaxByLen l0 ls, hchons, ?_, ?_, ?_⟩
        · simp only [_extract_title, hp, hcands, hflt]
        · intro x hx
          exact le_of_le_of_eq (hub x hx) hchsize.symm
        · intro x hx hxs
          have hxf : x ∈ (c :: rest).filter
              (fun y => decide (y.size = qListMax c.size (rest.map TitleCand.size))) :=
            List.mem_filter.mpr ⟨hx, by simp [hxs, hchsize]⟩
          rw [hflt] at hxf
          rcases List.mem_cons.mp hxf with hx0 | hxls
          · rw [hx0]
            exact pyMaxByLen_ge_acc l0 ls
          · exact pyMaxByLen_ge_mem l0 ls x hxls

/-- Witness for C6 at a concrete two-candidate first page. -/
theorem C6_title_selection_witness :
    titleDoc.pages.head? = some (Except.ok
      [⟨some [⟨[⟨"Hello World Title", 20, 0, bbox0⟩, ⟨"small text here", 10, 0, bbox0⟩]⟩]⟩]) ∧
    C6Prop titleDoc
      [⟨some [⟨[⟨"Hello World Title", 20, 0, bbox0⟩, ⟨"small text here", 10, 0, bbox0⟩]⟩]⟩] :=
  ⟨rfl, C6_title_selection titleDoc _ rfl⟩

theorem titleCandidates_nil_of_bad (blocks : List Block)
    (h : noTitleCandidateSpans blocks = true) : titleCandidates blocks = [] := by
  rw [titleCandidates, List.flatMap_eq_nil_iff]
  intro b hb
  rw [noTitleCandidateSpans, List.all_eq_true] at h
  have hbs := h b hb
  rcases hbl : b.lines with _ | lns
  · simp only [hbl]
  · simp only [hbl]
    rw [hbl, List.all_eq_true] at hbs
    rw [List.flatMap_eq_nil_iff]
    intro ln hln
    have hls := hbs ln hln
    rw [List.all_eq_true] at hls
    rw [List.filterMap_eq_nil_iff]
    intro sp hsp
    have := hls sp hsp
    rw [Bool.not_eq_eq_eq_not, Bool.not_true] at this
    simp only [this]
    rfl

/-- C10: every first-page title candidate is the stripped text of a span, is
strictly longer than 5 and strictly shorter than 150 characters, and starts
with none of "http", "www", "@", "#"; and when every first-page span violates
these bounds, the metadata/placeholder fallback chain is used even though
page 1 contains text. -/
theorem C10_title_candidate_bounds (doc : PDFDoc) (blocks : List Block)
    (hp : doc.pages.head? = some (Except.ok blocks)) : C10Prop doc blocks := by
  constructor
  · intro tc htc
    rw [titleCandidates] at htc
    obtain ⟨b, hb, htc1⟩ := List.mem_flatMap.mp htc
    rcases hbl : b.lines with _ | lns
    · rw [hbl] at htc1
      cases htc1
    · rw [hbl] at htc1
      obtain ⟨ln, hln, htc2⟩ := List.mem_flatMap.mp htc1
      obtain ⟨sp, hsp, hfa⟩ := List.mem_filterMap.mp htc2
      by_cases hok : titleTextOK (pyStrip sp.text) = true
      · rw [if_pos hok] at hfa
        cases hfa
        rw [titleTextOK] at hok
        simp only [Bool.and_eq_true, decide_eq_true_eq, Bool.not_eq_eq_eq_not, Bool.not_true]
          at hok
        obtain ⟨⟨⟨⟨⟨h1, h2⟩, h3⟩, h4⟩, h5⟩, h6⟩ := hok
        exact ⟨⟨h1, h2, h3, h4, h5, h6⟩, b, hb, lns, hbl, ln, hln, sp, hsp, rfl⟩
      · rw [if_neg hok] at hfa
        cases hfa
  · intro hbad
    simp only [_extract_title, hp, titleCandidates_nil_of_bad blocks hbad, metadataFallback]

/-- Witness for C10 at a concrete first page with no valid title candidate. -/
theorem C10_title_candidate_bounds_witness :
    noCandDoc.pages.head? = some (Except.ok
      [⟨some [⟨[⟨"Hi", 20, 0, bbox0⟩, ⟨"http example dot com", 10, 0, bbox0⟩]⟩]⟩]) ∧
    C10Prop noCandDoc
      [⟨some [⟨[⟨"Hi", 20, 0, bbox0⟩, ⟨"http example dot com", 10, 0, bbox0⟩]⟩]⟩] :=
  ⟨rfl, C10_title_candidate_bounds noCandDoc _ rfl⟩

theorem assignBySizes_mem (cs : List Candidate) (sizes : List ℚ) :
    ∀ i h, h ∈ assignBySizes cs i sizes ↔
      ∃ j s, sizes[j]? = some s ∧
        ∃ c ∈ cs, roundTo1 c.size = s ∧ h = mkHeading (i + j) c := by
  induction sizes with
  | nil => intro i h; simp [assignBySizes]
  | cons s rest ih =>
    intro i h
    rw [assignBySizes, List.mem_append]
    constructor
    · rintro (h1 | h2)
      · obtain ⟨c, hc, he⟩ := List.mem_map.mp h1
        have hcs := List.mem_filter.mp hc
        refine ⟨0, s, by simp, c, hcs.1, by simpa using hcs.2, ?_⟩
        rw [← he]
        simp
      · obtain ⟨j, s', hjs, c, hc, hr, he⟩ := (ih (i + 1) h).mp h2
        refine ⟨j + 1, s', by simpa using hjs, c, hc, hr, ?_⟩
        rw [he]
        congr 1
        omega
    · rintro ⟨j, s', hjs, c, hc, hr, he⟩
      cases j with
      | zero =>
        left
        simp only [List.getElem?_cons_zero, Option.some.injEq] at hjs
        apply List.mem_map.mpr
        refine ⟨c, List.mem_filter.mpr ⟨hc, by simp [hr, hjs]⟩, ?_⟩
        rw [he]
        simp
      | succ j' =>
        right
        apply (ih (i + 1) h).mpr
        refine ⟨j', s', by simpa using hjs, c, hc, hr, ?_⟩
        rw [he]
        congr 1
        omega

/-- C2: for a non-empty candidate list, the distinct rounded (one decimal)
font sizes are collected without duplicates and sorted descending; a heading
appears in the result exactly for the candidates whose rounded size sits at
one of the first 3 positions of that sorted list, with level `H(i+1)` for
position `i` (so `H1` is the largest size), and every candidate whose rounded
size falls outside the top 3 is dropped. -/
theorem C2_level_assignment (cs : List Candidate) (hne : cs ≠ []) : C2Prop cs := by
  have hnd : (distinctSortedSizesDesc cs).Nodup :=
    ((pySort_perm (fun a b => decide (b ≤ a)) _).nodup_iff).mpr (List.nodup_dedup _)
  have hassign : _assign_heading_levels cs =
      pySort (fun a b => decide (a.page ≤ b.page))
        (assignBySizes cs 1 ((distinctSortedSizesDesc cs).take 3)) := by
    rw [_assign_heading_levels, if_neg (by simpa [List.isEmpty_iff] using hne)]
  refine ⟨hnd, ?_, ?_, ?_, ?_⟩
  · have hpw := @pySort_pairwise _
      (fun a b : ℚ => decide (b ≤ a))
      (fun a b => by
        rcases le_total b a with h | h
        · left; simpa using h
        · right; simpa using h)
      (fun a b c hab hbc => by
        simp only [decide_eq_true_eq] at hab hbc ⊢
        exact le_trans hbc hab)
      ((cs.map (fun c => roundTo1 c.size)).dedup)
    exact hpw.imp (fun h => by simpa using h)
  · intro s
    rw [distinctSortedSizesDesc, pySort_mem, List.mem_dedup, List.mem_map]
  · intro h hmem
    rw [hassign, pySort_mem] at hmem
    obtain ⟨j, s, hjs, c, hc, hr, he⟩ := (assignBySizes_mem cs _ 1 h).mp hmem
    have hj3 : j < 3 := by
      obtain ⟨hlt, -⟩ := List.getElem?_eq_some.mp hjs
      have := List.length_take 3 (distinctSortedSizesDesc cs)
      omega
    refine ⟨c, hc, j, hj3, ?_, ?_⟩
    · rw [← List.getElem?_take_of_lt hj3, hjs, hr]
    · rw [he]
      congr 1
      omega
  · intro c hc i hi3 his
    rw [hassign, pySort_mem]
    apply (assignBySizes_mem cs _ 1 _).mpr
    refine ⟨i, roundTo1 c.size, ?_, c, hc, rfl, ?_⟩
    · rw [List.getElem?_take_of_lt hi3, his]
    · congr 1
      omega

/-- Witness for C2 at a concrete two-candidate list. -/
theorem C2_level_assignment_witness :
    ([⟨"Alpha", 1, 18, 1⟩, ⟨"Beta", 1, 14, 1⟩] : List Candidate) ≠ [] ∧
    C2Prop [⟨"Alpha", 1, 18, 1⟩, ⟨"Beta", 1, 14, 1⟩] :=
  ⟨by decide, C2_level_assignment [⟨"Alpha", 1, 18, 1⟩, ⟨"Beta", 1, 14, 1⟩] (by decide)⟩

theorem collapseGo_mem (l : List Char) :
    ∀ (b : Bool) (c : Char), c ∈ collapseGo b l →
      c = ' ' ∨ (c ∈ l ∧ isSpaceChar c = false) := by
  induction l with
  | nil => intro b c hc; cases hc
  | cons d ds ih =>
    intro b c hc
    by_cases hd : isSpaceChar d = true
    · cases b with
      | true =>
        rw [collapseGo, if_pos hd] at hc
        rcases ih true c hc with h | h
        · exact Or.inl h
        · exact Or.inr ⟨List.mem_cons_of_mem d h.1, h.2⟩
      | false =>
        rw [collapseGo, if_pos hd, if_neg Bool.false_ne_true] at hc
        rcases List.mem_cons.mp hc with rfl | hc'
        · exact Or.inl rfl
        · rcases ih true c hc' with h | h
          · exact Or.inl h
          · exact Or.inr ⟨List.mem_cons_of_mem d h.1, h.2⟩
    · rw [collapseGo, if_neg hd] at hc
      rcases List.mem_cons.mp hc with rfl | hc'
      · exact Or.inr ⟨List.mem_cons_self c ds, Bool.not_eq_true _ ▸ hd⟩
      · rcases ih false c hc' with h | h
        · exact Or.inl h
        · exact Or.inr ⟨List.mem_cons_of_mem d h.1, h.2⟩

theorem collapseGo_true_head (l : List Char) :
    ∀ a t, collapseGo true l = a :: t → isSpaceChar a = false := by
  induction l with
  | nil => intro a t h; cases h
  | cons d ds ih =>
    intro a t h
    by_cases hd : isSpaceChar d = true
    · rw [collapseGo, if_pos hd, if_pos rfl] at h
      exact ih a t h
    · rw [collapseGo, if_neg hd] at h
      cases h
      exact Bool.not_eq_true _ ▸ hd

theorem collapseGo_chain (l : List Char) :
    ∀ b, List.Chain' (fun x y => ¬(isSpaceChar x = true ∧ isSpaceChar y = true))
      (collapseGo b l) := by
  induction l with
  | nil => intro b; rw [collapseGo]; exact List.chain'_nil
  | cons d ds ih =>
    intro b
    by_cases hd : isSpaceChar d = true
    · cases b with
      | true =>
        rw [collapseGo, if_pos hd, if_pos rfl]
        exact ih true
      | false =>
        rw [collapseGo, if_pos hd, if_neg Bool.false_ne_true]
        rw [List.chain'_cons']
        refine ⟨?_, ih true⟩
        intro y hy
        rcases hh : collapseGo true ds with _ | ⟨a, t⟩
        · rw [hh] at hy; cases hy
        · rw [hh] at hy
          cases hy
          intro hcon
          exact absurd hcon.2 (by rw [collapseGo_true_head ds y t hh]; simp)
    · rw [collapseGo, if_neg hd]
      rw [List.chain'_cons']
      refine ⟨?_, ih false⟩
      intro y hy
      intro hcon
      exact hd hcon.1

theorem prefix_rstripChars (l : List Char) : rstripChars l <+: l := by
  induction l with
  | nil => exact List.prefix_refl []
  | cons c cs ih =>
    rw [rstripChars]
    rcases h : rstripChars cs with _ | ⟨x, t⟩
    · split_ifs
      · exact List.nil_prefix
      · exact ⟨cs, rfl⟩
    · rw [h] at ih
      obtain ⟨u, hu⟩ := ih
      exact ⟨u, by rw [List.cons_append, hu]⟩

theorem rstripChars_head? (l : List Char) :
    ∀ a t, rstripChars l = a :: t → l.head? = some a := by
  induction l with
  | nil => intro a t h; cases h
  | cons c cs ih =>
    intro a t h
    rw [rstripChars] at h
    rcases hcs : rstripChars cs with _ | ⟨x, r⟩
    · rw [hcs] at h
      by_cases hsp : isSpaceChar c = true
      · rw [if_pos hsp] at h
        cases h
      · rw [if_neg hsp] at h
        cases h
        rfl
    · rw [hcs] at h
      cases h
      rfl

theorem rstripChars_last_not_space (l : List Char) :
    ∀ a, (rstripChars l).getLast? = some a → isSpaceChar a = false := by
  induction l with
  | nil => intro a h; cases h
  | cons c cs ih =>
    intro a h
    rw [rstripChars] at h
    rcases hcs : rstripChars cs with _ | ⟨x, r⟩
    · rw [hcs] at h
      split_ifs at h with hc
      · cases h
      · rw [List.getLast?_singleton, Option.some.injEq] at h
        cases h
        exact Bool.not_eq_true _ ▸ hc
    · rw [hcs, List.getLast?_cons_cons] at h
      exact ih a (by rw [hcs]; exact h)

theorem rstripChars_eq_self (l : List Char)
    (h : ∀ a, l.getLast? = some a → isSpaceChar a = false) : rstripChars l = l := by
  induction l with
  | nil => rfl
  | cons c cs ih =>
    rcases hcs : cs with _ | ⟨d, cs'⟩
    · have hc : isSpaceChar c = false := h c (by rw [hcs]; simp)
      rw [rstripChars, rstripChars]
      simp [hc]
    · rw [← hcs, rstripChars]
      have htail : rstripChars cs = cs := by
        apply ih
        intro a ha
        apply h
        rw [hcs, List.getLast?_cons_cons, ← hcs]
        exact ha
      rw [htail, hcs]

theorem dropWhile_eq_self_of_head (l : List Char)
    (h : ∀ a, l.head? = some a → isSpaceChar a = false) :
    l.dropWhile isSpaceChar = l := by
  rcases l with _ | ⟨c, cs⟩
  · rfl
  · rw [List.dropWhile_cons_of_neg]
    rw [h c rfl]
    simp

theorem collapseGo_true_of_head (l : List Char)
    (h : ∀ a, l.head? = some a → isSpaceChar a = false) :
    collapseGo true l = collapseGo false l := by
  rcases l with _ | ⟨c, cs⟩
  · rfl
  · rw [collapseGo, collapseGo, if_neg (by rw [h c rfl]; simp), if_neg (by rw [h c rfl]; simp)]

theorem collapseGo_false_eq_self (l : List Char)
    (hblank : ∀ c ∈ l, isSpaceChar c = true → c = ' ')
    (hchain : List.Chain' (fun x y => ¬(isSpaceChar x = true ∧ isSpaceChar y = true)) l) :
    collapseGo false l = l := by
  induction l with
  | nil => rfl
  | cons c cs ih =>
    rw [List.chain'_cons'] at hchain
    by_cases hc : isSpaceChar c = true
    · have hcblank : c = ' ' := hblank c (List.mem_cons_self c cs) hc
      have hhead : ∀ a, cs.head? = some a → isSpaceChar a = false := by
        intro a ha
        have := hchain.1 a ha
        cases hsa : isSpaceChar a
        · rfl
        · exact absurd ⟨hc, hsa⟩ this
      rw [collapseGo, if_pos hc, if_neg Bool.false_ne_true, collapseGo_true_of_head cs hhead,
        ih (fun d hd => hblank d (List.mem_cons_of_mem c hd)) hchain.2, hcblank]
    · rw [collapseGo, if_neg hc,
        ih (fun d hd => hblank d (List.mem_cons_of_mem c hd)) hchain.2]

theorem stripChars_mem (l : List Char) (c : Char) (h : c ∈ stripChars l) : c ∈ l := by
  rw [stripChars] at h
  have h1 := (prefix_rstripChars (l.dropWhile isSpaceChar)).sublist.subset h
  exact (List.dropWhile_sublist isSpaceChar).subset h1

theorem cleanChars_allowed (l : List Char) :
    ∀ c ∈ cleanChars l, isAllowedChar c = true := by
  intro c hc
  exact (List.mem_filter.mp hc).2

theorem cleanChars_blank (l : List Char) :
    ∀ c ∈ cleanChars l, isSpaceChar c = true → c = ' ' := by
  intro c hc hs
  have h1 : c ∈ stripChars (collapseWS l) := (List.mem_filter.mp hc).1
  have h2 : c ∈ collapseGo false l := stripChars_mem _ c h1
  rcases collapseGo_mem l false c h2 with h | h
  · exact h
  · rw [h.2] at hs
    cases hs

theorem cleanChars_eq_self (u : List Char)
    (huA : ∀ c ∈ u, isAllowedChar c = true)
    (huB : ∀ c ∈ u, isSpaceChar c = true → c = ' ')
    (huchain : List.Chain' (fun x y => ¬(isSpaceChar x = true ∧ isSpaceChar y = true)) u)
    (huhead : ∀ a, u.head? = some a → isSpaceChar a = false)
    (hulast : ∀ a, u.getLast? = some a → isSpaceChar a = false) :
    cleanChars u = u := by
  rw [cleanChars, collapseWS, collapseGo_false_eq_self u huB huchain, stripChars,
    dropWhile_eq_self_of_head u huhead, rstripChars_eq_self u hulast,
    List.filter_eq_self.mpr huA]

theorem cleanChars_normal (t : List Char)
    (htA : ∀ c ∈ t, isAllowedChar c = true) :
    (∀ c ∈ cleanChars t, isAllowedChar c = true) ∧
    (∀ c ∈ cleanChars t, isSpaceChar c = true → c = ' ') ∧
    List.Chain' (fun x y => ¬(isSpaceChar x = true ∧ isSpaceChar y = true)) (cleanChars t) ∧
    (∀ a, (cleanChars t).head? = some a → isSpaceChar a = false) ∧
    (∀ a, (cleanChars t).getLast? = some a → isSpaceChar a = false) := by
  have hmA : ∀ c ∈ collapseGo false t, isAllowedChar c = true := by
    intro c hc
    rcases collapseGo_mem t false c hc with rfl | ⟨hct, -⟩
    · rfl
    · exact htA c hct
  have hwA : ∀ c ∈ (collapseGo false t).dropWhile isSpaceChar, isAllowedChar c = true :=
    fun c hc => hmA c ((List.dropWhile_sublist isSpaceChar).subset hc)
  have huA : ∀ c ∈ rstripChars ((collapseGo false t).dropWhile isSpaceChar),
      isAllowedChar c = true :=
    fun c hc => hwA c ((prefix_rstripChars _).sublist.subset hc)
  have hfix : cleanChars t = rstripChars ((collapseGo false t).dropWhile isSpaceChar) := by
    rw [cleanChars, collapseWS, stripChars, List.filter_eq_self.mpr huA]
  have hwhead : ∀ a, ((collapseGo false t).dropWhile isSpaceChar).head? = some a →
      isSpaceChar a = false := by
    intro a ha
    have h2 := List.head?_dropWhile_not isSpaceChar (collapseGo false t)
    rw [ha] at h2
    exact h2
  have hwchain : List.Chain' (fun x y => ¬(isSpaceChar x = true ∧ isSpaceChar y = true))
      ((collapseGo false t).dropWhile isSpaceChar) :=
    (collapseGo_chain t false).suffix (List.dropWhile_suffix isSpaceChar)
  refine ⟨?_, ?_, ?_, ?_, ?_⟩
  · exact fun c hc => cleanChars_allowed t c hc
  · exact fun c hc => cleanChars_blank t c hc
  · rw [hfix]
    exact hwchain.prefix (prefix_rstripChars _)
  · intro a ha
    rw [hfix] at ha
    rcases hcase : rstripChars ((collapseGo false t).dropWhile isSpaceChar) with _ | ⟨x, xs⟩
    · rw [hcase] at ha
      cases ha
    · rw [hcase] at ha
      cases ha
      exact hwhead a (rstripChars_head? _ a xs hcase)
  · intro a ha
    rw [hfix] at ha
    exact rstripChars_last_not_space _ a ha

theorem cleanChars_clean_clean_fixed (l : List Char) :
    cleanChars (cleanChars (cleanChars l)) = cleanChars (cleanChars l) := by
  obtain ⟨hA, hB, hC, hD, hE⟩ := cleanChars_normal (cleanChars l) (cleanChars_allowed l)
  exact cleanChars_eq_self (cleanChars (cleanChars l)) hA hB hC hD hE

/-- C9 (amended): `_clean_text` is not idempotent in one application, but its
result stabilizes after two: for every string `s`,
`_clean_text (_clean_text (_clean_text s)) = _clean_text (_clean_text s)` —
applying the normalization to twice-cleaned text is a no-op. -/
theorem C9_clean_twice_fixed_point (s : String) :
    _clean_text (_clean_text (_clean_text s)) = _clean_text (_clean_text s) :=
  congrArg String.mk (cleanChars_clean_clean_fixed s.data)
